import Mathlib

/-!
Verification of the SPI slave half-duplex HAL core
(components/hal/include/hal/spi_slave_hd_hal.h).

The repository provides only the HAL header (types, function contracts and
documentation); the implementation file `spi_slave_hd_hal.c` is not present.
Every operation below is therefore a shallow embedding modelled from the
specification's words (and the header's own documentation), as indicated by
the `Modelled from the spec:` doc comments.  Opaque C pointers (buffers,
correlation handles) are modelled as natural numbers; machine integers that
never overflow in the modelled ranges are modelled as `Nat`.
-/

namespace SpiSlaveHd

/-- The fixed set of event kinds exposed by the HAL
(`spi_event_t` restricted to the events this driver uses):
BUF_TX, BUF_RX, CMD9, CMDA, SEND, RECV. -/
inductive SpiEvent where
  | buf_tx
  | buf_rx
  | cmd9
  | cmda
  | send
  | recv
deriving DecidableEq, Repr

/-- Modelled from the spec: the per-event state of the Event/Interrupt
Controller — for each event kind a triggered/not-triggered flag backed by a
hardware status bit, and an interrupt-source-enabled flag independent of the
status bit. -/
structure EventCtrl where
  status : SpiEvent → Bool
  intrEna : SpiEvent → Bool

/-- Which party may currently mutate a DMA descriptor and its buffer. -/
inductive Owner where
  | software
  | hardware
deriving DecidableEq, Repr

/-- Modelled from the spec: a ring slot pairing the hardware DMA descriptor
fields (owner, buffer pointer, buffer capacity, transferred length, eof) with
the software-side opaque correlation handle supplied at submission time.
The `next` chain of the hardware descriptors is represented implicitly by the
circular index order of the slot array. -/
structure TaggedDescriptor where
  owner : Owner
  eof : Bool
  handle : Nat
  bufferPtr : Nat
  bufferCapacity : Nat
  transferredLength : Nat
deriving DecidableEq, Repr

/-- The descriptor a freshly initialized ring slot holds. -/
def blankDesc : TaggedDescriptor :=
  { owner := .software, eof := false, handle := 0, bufferPtr := 0,
    bufferCapacity := 0, transferredLength := 0 }

/-- Modelled from the spec: the state of one descriptor ring direction —
a fixed array of `capacity` tagged descriptors, `head` the oldest slot not
yet reclaimed, `tail` the most recently linked slot, `current` the next free
slot to link, and `usedCount` the number of slots currently in flight.
This is the shape of the `tx_*`/`rx_*` descriptor fields of
`spi_slave_hd_hal_context_t` (`tx_used_desc_cnt`, `tx_dma_head`,
`tx_dma_tail`, `tx_cur_desc` and the rx counterparts), with pointers
replaced by slot indices. -/
structure RingState where
  capacity : Nat
  slots : List TaggedDescriptor
  head : Nat
  tail : Nat
  current : Nat
  usedCount : Nat
deriving DecidableEq, Repr

/-- A freshly initialized descriptor ring with `n` slots. -/
def initRing (n : Nat) : RingState :=
  { capacity := n, slots := List.replicate n blankDesc,
    head := 0, tail := 0, current := 0, usedCount := 0 }

/-- The ring-manager error: no free slot. -/
inductive RingError where
  | ringFull
deriving DecidableEq, Repr

/-- Modelled from the spec: `linkNext(buffer, length, handle)` of the
Descriptor Ring Manager.  Requires a free slot (`usedCount < capacity`);
fills the slot at `current` with the buffer pointer, capacity and handle,
sets `eof` on the slot completing the submitted transaction's chain (each
submission is a single-descriptor chain, so its own slot), advances `tail`
and `current` circularly, and increments `usedCount`.  Fails with `ringFull`
when no free slot exists.  Linking alone does not hand ownership to
HARDWARE. -/
def linkNext (r : RingState) (buf len handle : Nat) : Except RingError RingState :=
  if r.usedCount < r.capacity then
    .ok { r with
          slots := r.slots.set r.current
            { owner := .software, eof := true, handle := handle,
              bufferPtr := buf, bufferCapacity := len, transferredLength := 0 },
          tail := r.current,
          current := (r.current + 1) % r.capacity,
          usedCount := r.usedCount + 1 }
  else
    .error .ringFull

/-- Modelled from the spec: arming a linked slot — handing ownership of the
slot at index `i` to HARDWARE so the engine may consume it. -/
def armSlot (r : RingState) (i : Nat) : RingState :=
  match r.slots[i]? with
  | some s => { r with slots := r.slots.set i { s with owner := .hardware } }
  | none => r

/-- Modelled from the spec: an append-mode submission — `linkNext` followed
by arming the newly linked slot (handing it to HARDWARE and extending the
running chain). -/
def submitAppend (r : RingState) (buf len handle : Nat) : Except RingError RingState :=
  match linkNext r buf len handle with
  | .ok r2 => .ok (armSlot r2 r2.tail)
  | .error e => .error e

/-- Modelled from the spec: the asynchronous DMA engine finishing the
descriptor at slot `i`, having moved `k` bytes — it records the transferred
length and returns ownership to SOFTWARE.  A slot not owned by HARDWARE is
left untouched (the engine only writes descriptors it owns). -/
def hwComplete (r : RingState) (i k : Nat) : RingState :=
  match r.slots[i]? with
  | some s =>
      if s.owner = .hardware then
        { r with slots :=
            r.slots.set i { s with owner := .software, transferredLength := k } }
      else r
  | none => r

/-- Modelled from the spec: `reclaimHead()` of the Descriptor Ring Manager,
the common core of `spi_slave_hd_hal_get_tx_finished_trans` and
`spi_slave_hd_hal_get_rx_finished_trans`.  Examines the slot at `head`: if
nothing is in flight, or the slot is still owned by HARDWARE, returns
nothing and leaves the ring unchanged; if the owner is SOFTWARE, returns
`(handle, bufferPtr, transferredLength)`, advances `head` circularly and
decrements `usedCount`, freeing the slot for reuse. -/
def reclaimHead (r : RingState) : Option (Nat × Nat × Nat) × RingState :=
  if r.usedCount = 0 then (none, r)
  else
    match r.slots[r.head]? with
    | some s =>
        if s.owner = .software then
          (some (s.handle, s.bufferPtr, s.transferredLength),
           { r with head := (r.head + 1) % r.capacity,
                    usedCount := r.usedCount - 1 })
        else (none, r)
    | none => (none, r)

/-- Modelled from the spec: the segment-mode single-slot RX transfer state —
`prepareRx` resets it to a one-slot armed chain bound to the caller's
destination buffer; the transferred length is valid once ownership returns
to SOFTWARE. -/
structure SegRx where
  armed : Bool
  owner : Owner
  bufferPtr : Nat
  bufferCapacity : Nat
  transferredLength : Nat
deriving DecidableEq, Repr

/-- The error-code type surfaced to callers (`esp_err_t` values the ESP-IDF
API can carry); the HAL contract surfaces only `ok` and `invalid_state`. -/
inductive EspErr where
  | ok
  | fail
  | no_mem
  | invalid_arg
  | invalid_state
  | invalid_size
  | not_found
  | not_supported
  | timeout
deriving DecidableEq, Repr

/-- The HAL configuration (`spi_slave_hd_hal_config_t`). -/
structure HalConfig where
  host_id : Nat
  dma_enabled : Bool
  append_mode : Bool
  spics_io_num : Nat
  mode : Nat
  command_bits : Nat
  address_bits : Nat
  dummy_bits : Nat
  tx_lsbfirst : Bool
  rx_lsbfirst : Bool
deriving DecidableEq, Repr

/-- The HAL context (`spi_slave_hd_hal_context_t`): both descriptor rings,
the event-controller state, the operating mode and DMA flags, the
segment-mode RX state and last-transaction scalars, and the internal
`intr_not_triggered` workaround status word. -/
structure HalContext where
  dma_enabled : Bool
  append_mode : Bool
  dma_desc_num : Nat
  txRing : RingState
  rxRing : RingState
  events : EventCtrl
  rxSeg : SegRx
  current_eof_addr : Nat
  last_addr : Nat
  intr_not_triggered : Nat

/-- Modelled from the spec: the maximum data bytes a single DMA descriptor
can carry (the descriptor's per-unit capacity used to derive the ring
capacity from the maximum transfer size). -/
def dmaDescriptorBufferMaxSize : Nat := 4092

/-- Modelled from the spec: `spi_slave_hd_hal_init` — initializes the
context from the configuration.  The ring capacity `dma_desc_num` is
computed from the maximum supported transfer size and the descriptor's
per-unit capacity; the internal status word `intr_not_triggered` is
documented in the header as "initialized as 0"; all events start idle. -/
def spi_slave_hd_hal_init (cfg : HalConfig) (busMaxTransferSize : Nat) : HalContext :=
  let n := (busMaxTransferSize + dmaDescriptorBufferMaxSize - 1) / dmaDescriptorBufferMaxSize
  { dma_enabled := cfg.dma_enabled,
    append_mode := cfg.append_mode,
    dma_desc_num := n,
    txRing := initRing n,
    rxRing := initRing n,
    events := { status := fun _ => false, intrEna := fun _ => false },
    rxSeg := { armed := false, owner := .software, bufferPtr := 0,
               bufferCapacity := 0, transferredLength := 0 },
    current_eof_addr := 0,
    last_addr := 0,
    intr_not_triggered := 0 }

/-- Modelled from the spec: the peripheral hardware asynchronously raising
an event's status bit (an external trigger; not an operation of the HAL
itself). -/
def hwTrigger (hal : HalContext) (ev : SpiEvent) : HalContext :=
  { hal with events :=
      { hal.events with status := Function.update hal.events.status ev true } }

/-- Modelled from the spec: `spi_slave_hd_hal_check_clear_event` — if the
hardware status bit of `ev` is set, clears it and returns true; otherwise
returns false and changes nothing. -/
def spi_slave_hd_hal_check_clear_event (hal : HalContext) (ev : SpiEvent) :
    Bool × HalContext :=
  if hal.events.status ev then
    (true, { hal with events :=
        { hal.events with status := Function.update hal.events.status ev false } })
  else
    (false, hal)

/-- Modelled from the spec: `spi_slave_hd_hal_check_disable_event` — if the
status bit of `ev` is set, disables that event's interrupt source WITHOUT
clearing the status bit and returns true; if not set, returns false and
leaves all state unchanged. -/
def spi_slave_hd_hal_check_disable_event (hal : HalContext) (ev : SpiEvent) :
    Bool × HalContext :=
  if hal.events.status ev then
    (true, { hal with events :=
        { hal.events with intrEna := Function.update hal.events.intrEna ev false } })
  else
    (false, hal)

/-- Modelled from the spec: `spi_slave_hd_hal_enable_event_intr` —
re-enables the interrupt source of `ev` without altering the status bit. -/
def spi_slave_hd_hal_enable_event_intr (hal : HalContext) (ev : SpiEvent) :
    HalContext :=
  { hal with events :=
      { hal.events with intrEna := Function.update hal.events.intrEna ev true } }

/-- Modelled from the spec: `spi_slave_hd_hal_invoke_event_intr` — forces
the ISR to run for `ev` by raising the same status bit the hardware trigger
uses (so both paths reconcile through one status-bit state, never two
independent completion signals), and re-enables the interrupt source as a
side effect. -/
def spi_slave_hd_hal_invoke_event_intr (hal : HalContext) (ev : SpiEvent) :
    HalContext :=
  { hal with events :=
      { status := Function.update hal.events.status ev true,
        intrEna := Function.update hal.events.intrEna ev true } }

/-- Modelled from the spec: `spi_slave_hd_hal_write_buffer` — a pure
register-mapped memory copy of `data` into the shared buffer at `addr`.
The shared buffer region is modelled as its byte list. -/
def spi_slave_hd_hal_write_buffer (buf : List Nat) (addr : Nat) (data : List Nat) :
    List Nat :=
  buf.take addr ++ data ++ buf.drop (addr + data.length)

/-- Modelled from the spec: `spi_slave_hd_hal_read_buffer` — reads `len`
bytes of the shared buffer starting at `addr`. -/
def spi_slave_hd_hal_read_buffer (buf : List Nat) (addr len : Nat) : List Nat :=
  (buf.drop addr).take len

/-- Modelled from the spec: `spi_slave_hd_hal_rxdma` (segment-mode
prepareRx) — resets the RX transfer to a single-slot armed state bound to
the caller-provided destination buffer of capacity `cap`, hands ownership
to HARDWARE and arms the engine. -/
def spi_slave_hd_hal_rxdma (hal : HalContext) (buf cap : Nat) : HalContext :=
  { hal with rxSeg :=
      { armed := true, owner := .hardware, bufferPtr := buf,
        bufferCapacity := cap, transferredLength := 0 } }

/-- Modelled from the spec: the hardware completing a segment-mode RX
transfer — it writes at most the buffer capacity, records the written
length, returns ownership to SOFTWARE and raises the RECV event. -/
def hwSegRxComplete (hal : HalContext) (k : Nat) : HalContext :=
  { hal with
    rxSeg :=
      { hal.rxSeg with
        owner := .software
        transferredLength := min k hal.rxSeg.bufferCapacity }
    events :=
      { hal.events with
        status := Function.update hal.events.status .recv true } }

/-- Modelled from the spec: `spi_slave_hd_hal_rxdma_seg_get_len` — returns
the number of bytes written into the destination buffer for the
just-completed segment (valid after the RECV event fired). -/
def spi_slave_hd_hal_rxdma_seg_get_len (hal : HalContext) : Nat :=
  hal.rxSeg.transferredLength

/-- Modelled from the spec: `spi_slave_hd_hal_txdma_append` — fails with
`invalid_state` when the context was not initialized in append mode or when
the TX ring has no free slot; otherwise links and arms a descriptor for the
data and succeeds. -/
def spi_slave_hd_hal_txdma_append (hal : HalContext) (data len arg : Nat) :
    EspErr × HalContext :=
  if hal.append_mode then
    match submitAppend hal.txRing data len arg with
    | .ok r => (.ok, { hal with txRing := r })
    | .error .ringFull => (.invalid_state, hal)
  else
    (.invalid_state, hal)

/-- Modelled from the spec: `spi_slave_hd_hal_rxdma_append` — fails with
`invalid_state` when the context was not initialized in append mode or when
the RX ring has no free slot; otherwise links and arms a descriptor for the
buffer and succeeds. -/
def spi_slave_hd_hal_rxdma_append (hal : HalContext) (data len arg : Nat) :
    EspErr × HalContext :=
  if hal.append_mode then
    match submitAppend hal.rxRing data len arg with
    | .ok r => (.ok, { hal with rxRing := r })
    | .error .ringFull => (.invalid_state, hal)
  else
    (.invalid_state, hal)

/-- Modelled from the spec: `spi_slave_hd_hal_get_tx_finished_trans` —
delegates to `reclaimHead` on the TX ring; on completion returns the
caller's correlation handle and the real buffer address. -/
def spi_slave_hd_hal_get_tx_finished_trans (hal : HalContext) :
    Option (Nat × Nat) × HalContext :=
  match reclaimHead hal.txRing with
  | (some (h, b, _), r) => (some (h, b), { hal with txRing := r })
  | (none, r) => (none, { hal with txRing := r })

/-- Modelled from the spec: `spi_slave_hd_hal_get_rx_finished_trans` —
delegates to `reclaimHead` on the RX ring; on completion returns the
caller's correlation handle, the real buffer address and the received
length. -/
def spi_slave_hd_hal_get_rx_finished_trans (hal : HalContext) :
    Option (Nat × Nat × Nat) × HalContext :=
  match reclaimHead hal.rxRing with
  | (some (h, b, l), r) => (some (h, b, l), { hal with rxRing := r })
  | (none, r) => (none, { hal with rxRing := r })

/-- One step of a submission sequence: the state kept by the caller after a
submission attempt (the old state on failure). -/
def submitStep (r : RingState) (sub : Nat × Nat × Nat) : RingState :=
  match submitAppend r sub.1 sub.2.1 sub.2.2 with
  | .ok r2 => r2
  | .error _ => r

/-- A whole sequence of submission attempts. -/
def submitSeq (r : RingState) (subs : List (Nat × Nat × Nat)) : RingState :=
  subs.foldl submitStep r

/-- Decidable side condition: every in-flight slot beyond the head is still
owned by the hardware (no completion other than the head's has occurred). -/
def onlyHeadCompleted (r : RingState) : Prop :=
  ∀ j, j < r.usedCount → 0 < j →
    (r.slots.getD ((r.head + j) % r.capacity) blankDesc).owner = .hardware

instance (r : RingState) : Decidable (onlyHeadCompleted r) := by
  unfold onlyHeadCompleted
  infer_instance

/-- A two-slot ring with both slots in flight and owned by the hardware,
used as the C3 witness input. -/
def descA : TaggedDescriptor :=
  { owner := .hardware, eof := true, handle := 5, bufferPtr := 100,
    bufferCapacity := 8, transferredLength := 0 }

/-- The second in-flight descriptor of the C3 witness ring. -/
def descB : TaggedDescriptor := { descA with handle := 6, bufferPtr := 200 }

/-- The C3 witness ring: capacity 2, both slots in flight. -/
def ringC3 : RingState :=
  { capacity := 2, slots := [descA, descB], head := 0, tail := 1,
    current := 0, usedCount := 2 }

/-- The descriptor a successful append-mode submission writes: armed
(HARDWARE-owned), eof set, carrying the caller's buffer and handle. -/
def armedDesc (b l a : Nat) : TaggedDescriptor :=
  { owner := .hardware, eof := true, handle := a, bufferPtr := b,
    bufferCapacity := l, transferredLength := 0 }

/-- The ring state a successful append-mode submission produces. -/
def submitResult (r : RingState) (b l a : Nat) : RingState :=
  { r with
    slots := r.slots.set r.current (armedDesc b l a),
    tail := r.current,
    current := (r.current + 1) % r.capacity,
    usedCount := r.usedCount + 1 }

/-- The correlation handles of the in-flight slots, oldest (head) first. -/
def inflightHandles (r : RingState) : List Nat :=
  (List.range r.usedCount).map
    (fun j => (r.slots.getD ((r.head + j) % r.capacity) blankDesc).handle)

/-- The structural invariant of a descriptor ring in use. -/
structure RingInv (r : RingState) : Prop where
  capPos : 0 < r.capacity
  slotsLen : r.slots.length = r.capacity
  headLt : r.head < r.capacity
  usedLe : r.usedCount ≤ r.capacity
  currentEq : r.current = (r.head + r.usedCount) % r.capacity

/-- The observable operations of an append-mode run: a caller submission, an
asynchronous hardware completion of slot `i` with `k` bytes moved, and a
caller reclaim attempt. -/
inductive RingOp where
  | submit (buf len handle : Nat)
  | complete (i k : Nat)
  | reclaim
deriving DecidableEq, Repr

/-- A run of the append-mode queue: the ring together with the history of
successfully submitted handles and of delivered (reclaimed) handles. -/
structure RunState where
  ring : RingState
  submitted : List Nat
  delivered : List Nat
deriving Repr

/-- One step of an append-mode run. -/
def stepOp (s : RunState) : RingOp → RunState
  | .submit b l a =>
      match submitAppend s.ring b l a with
      | .ok r => { ring := r, submitted := s.submitted ++ [a],
                   delivered := s.delivered }
      | .error _ => s
  | .complete i k => { s with ring := hwComplete s.ring i k }
  | .reclaim =>
      match reclaimHead s.ring with
      | (some (a, _, _), r) =>
          { ring := r, submitted := s.submitted,
            delivered := s.delivered ++ [a] }
      | (none, r) => { s with ring := r }

/-- A whole append-mode run. -/
def runOps (s : RunState) (ops : List RingOp) : RunState :=
  ops.foldl stepOp s

/-- The run starting from a freshly initialized ring of capacity `n`. -/
def initRun (n : Nat) : RunState :=
  { ring := initRing n, submitted := [], delivered := [] }

/-- The run invariant: the ring is well formed and the delivered handles
followed by the in-flight handles are exactly the submitted handles in
submission order. -/
def RunInv (s : RunState) : Prop :=
  RingInv s.ring ∧ s.delivered ++ inflightHandles s.ring = s.submitted

/-- The spec's A, B, C scenario: three submissions with handles 1, 2, 3,
all three completed (the completions deliberately arrive out of slot
order), then three reclaims. -/
def opsABC : List RingOp :=
  [.submit 10 4 1, .submit 20 4 2, .submit 30 4 3,
   .complete 2 7, .complete 0 9, .complete 1 8,
   .reclaim, .reclaim, .reclaim]

/-- A concrete configuration used by the closed witnesses. -/
def cfgEx : HalConfig :=
  { host_id := 1, dma_enabled := true, append_mode := true, spics_io_num := 10,
    mode := 0, command_bits := 8, address_bits := 8, dummy_bits := 8,
    tx_lsbfirst := false, rx_lsbfirst := false }

/-- A concrete freshly initialized context used by the closed witnesses. -/
def halEx : HalContext := spi_slave_hd_hal_init cfgEx 65536

/-! ## Theorems: event controller, shared buffer, segment RX, init -/

/-- Claim C5: for every event kind, `spi_slave_hd_hal_check_clear_event`
returns true and clears the status bit exactly when the hardware status bit
was set, is a no-op returning false when it was not, returns false on every
subsequent call, and returns true again once the hardware re-triggers the
event. -/
theorem check_clear_event_once_per_trigger (hal : HalContext) (ev : SpiEvent) :
    (spi_slave_hd_hal_check_clear_event hal ev).1 = hal.events.status ev
    ∧ ((spi_slave_hd_hal_check_clear_event hal ev).2).events.status ev = false
    ∧ (hal.events.status ev = false →
        (spi_slave_hd_hal_check_clear_event hal ev).2 = hal)
    ∧ (spi_slave_hd_hal_check_clear_event
        (spi_slave_hd_hal_check_clear_event hal ev).2 ev).1 = false
    ∧ (spi_slave_hd_hal_check_clear_event
        (hwTrigger (spi_slave_hd_hal_check_clear_event hal ev).2 ev) ev).1 = true := by
  unfold spi_slave_hd_hal_check_clear_event hwTrigger
  by_cases h : hal.events.status ev = true
  · simp [h]
  · simp only [Bool.not_eq_true] at h
    simp [h]

/-- Closed witness for C5: on a freshly initialized context the SEND status
bit is clear, so `check_clear_event` leaves the context unchanged. -/
theorem check_clear_event_once_per_trigger_witness :
    halEx.events.status .send = false
    ∧ (spi_slave_hd_hal_check_clear_event halEx .send).2 = halEx :=
  ⟨rfl, (check_clear_event_once_per_trigger halEx .send).2.2.1 rfl⟩

/-- Claim C6: for every event kind, `spi_slave_hd_hal_check_disable_event`
on a triggered event disables that event's interrupt source while leaving
every status bit unchanged and returns true; on a non-triggered event it
returns false leaving all state unchanged; and a subsequent
`spi_slave_hd_hal_enable_event_intr` re-enables the interrupt source with
the status bits still untouched, so a later hardware trigger is observable
without the original status bit ever having been cleared. -/
theorem check_disable_then_enable_event (hal : HalContext) (ev : SpiEvent) :
    (spi_slave_hd_hal_check_disable_event hal ev).1 = hal.events.status ev
    ∧ ((spi_slave_hd_hal_check_disable_event hal ev).2).events.status
        = hal.events.status
    ∧ (hal.events.status ev = true →
        ((spi_slave_hd_hal_check_disable_event hal ev).2).events.intrEna ev = false)
    ∧ (hal.events.status ev = false →
        (spi_slave_hd_hal_check_disable_event hal ev).2 = hal)
    ∧ (spi_slave_hd_hal_enable_event_intr
        (spi_slave_hd_hal_check_disable_event hal ev).2 ev).events.intrEna ev = true
    ∧ (spi_slave_hd_hal_enable_event_intr
        (spi_slave_hd_hal_check_disable_event hal ev).2 ev).events.status
        = hal.events.status
    ∧ (spi_slave_hd_hal_check_clear_event
        (hwTrigger (spi_slave_hd_hal_enable_event_intr
          (spi_slave_hd_hal_check_disable_event hal ev).2 ev) ev) ev).1 = true := by
  unfold spi_slave_hd_hal_check_disable_event spi_slave_hd_hal_enable_event_intr
    spi_slave_hd_hal_check_clear_event hwTrigger
  by_cases h : hal.events.status ev = true
  · simp [h]
  · simp only [Bool.not_eq_true] at h
    simp [h]

/-- Closed witness for C6: on a context whose SEND status bit is set,
`check_disable_event` disables the SEND interrupt source. -/
theorem check_disable_then_enable_event_witness :
    (hwTrigger halEx .send).events.status .send = true
    ∧ ((spi_slave_hd_hal_check_disable_event
        (hwTrigger halEx .send) .send).2).events.intrEna .send = false :=
  ⟨by decide,
   (check_disable_then_enable_event (hwTrigger halEx .send) .send).2.2.1 (by decide)⟩

/-- Claim C7: for every event kind and state,
`spi_slave_hd_hal_invoke_event_intr` is idempotent, re-enables the event's
interrupt source, and reconciles with a concurrent hardware trigger through
the same status-bit state (invoking after or before a hardware trigger
yields the identical state, and the resulting completion is delivered
exactly once through `check_clear_event`). -/
theorem invoke_event_intr_idempotent (hal : HalContext) (ev : SpiEvent) :
    spi_slave_hd_hal_invoke_event_intr (spi_slave_hd_hal_invoke_event_intr hal ev) ev
      = spi_slave_hd_hal_invoke_event_intr hal ev
    ∧ (spi_slave_hd_hal_invoke_event_intr hal ev).events.intrEna ev = true
    ∧ spi_slave_hd_hal_invoke_event_intr (hwTrigger hal ev) ev
      = spi_slave_hd_hal_invoke_event_intr hal ev
    ∧ hwTrigger (spi_slave_hd_hal_invoke_event_intr hal ev) ev
      = spi_slave_hd_hal_invoke_event_intr hal ev
    ∧ (spi_slave_hd_hal_check_clear_event
        (hwTrigger (spi_slave_hd_hal_invoke_event_intr hal ev) ev) ev).1 = true
    ∧ (spi_slave_hd_hal_check_clear_event
        ((spi_slave_hd_hal_check_clear_event
          (hwTrigger (spi_slave_hd_hal_invoke_event_intr hal ev) ev) ev).2) ev).1
        = false := by
  unfold spi_slave_hd_hal_invoke_event_intr hwTrigger
    spi_slave_hd_hal_check_clear_event
  simp [Function.update_idem]

/-- Claim C8: writing bytes to the shared register buffer and reading the
same address range back returns exactly the bytes written, whenever the
accessed range lies within the buffer. -/
theorem write_read_buffer_roundtrip (buf data : List Nat) (addr : Nat)
    (h : addr + data.length ≤ buf.length) :
    spi_slave_hd_hal_read_buffer
      (spi_slave_hd_hal_write_buffer buf addr data) addr data.length = data := by
  unfold spi_slave_hd_hal_read_buffer spi_slave_hd_hal_write_buffer
  have htake : (buf.take addr).length = addr := by
    simp only [List.length_take]
    omega
  rw [List.append_assoc, List.drop_left' htake, List.take_left' rfl]

/-- Closed witness for C8 at a concrete buffer, address and data. -/
theorem write_read_buffer_roundtrip_witness :
    1 + 2 ≤ 5
    ∧ spi_slave_hd_hal_read_buffer
        (spi_slave_hd_hal_write_buffer [1, 2, 3, 4, 5] 1 [9, 8]) 1 2 = [9, 8] :=
  ⟨by decide, write_read_buffer_roundtrip [1, 2, 3, 4, 5] [9, 8] 1 (by decide)⟩

/-- Claim C9: in segment mode, `spi_slave_hd_hal_rxdma` resets the RX
transfer to a single-slot armed state bound to the caller's buffer with
ownership handed to HARDWARE; after the hardware writes `k ≤ cap` bytes and
the RECV event fires, `spi_slave_hd_hal_rxdma_seg_get_len` returns exactly
`k`. -/
theorem rxdma_seg_get_len_exact (hal : HalContext) (buf cap k : Nat)
    (hk : k ≤ cap) :
    (spi_slave_hd_hal_rxdma hal buf cap).rxSeg.owner = .hardware
    ∧ (spi_slave_hd_hal_rxdma hal buf cap).rxSeg.armed = true
    ∧ (spi_slave_hd_hal_rxdma hal buf cap).rxSeg.bufferPtr = buf
    ∧ (hwSegRxComplete (spi_slave_hd_hal_rxdma hal buf cap) k).events.status .recv
        = true
    ∧ spi_slave_hd_hal_rxdma_seg_get_len
        (hwSegRxComplete (spi_slave_hd_hal_rxdma hal buf cap) k) = k := by
  unfold spi_slave_hd_hal_rxdma hwSegRxComplete spi_slave_hd_hal_rxdma_seg_get_len
  simp [Nat.min_eq_left hk]

/-- Closed witness for C9: a 64-byte buffer with a 40-byte hardware write
yields a reported length of 40 (the spec's scenario). -/
theorem rxdma_seg_get_len_exact_witness :
    40 ≤ 64
    ∧ spi_slave_hd_hal_rxdma_seg_get_len
        (hwSegRxComplete (spi_slave_hd_hal_rxdma halEx 0 64) 40) = 40 :=
  ⟨by decide, (rxdma_seg_get_len_exact halEx 0 64 40 (by decide)).2.2.2.2⟩

/-! ## Ring manager lemmas -/

/-- Two distinct in-flight offsets below the capacity land on distinct ring
indices. -/
theorem add_mod_ne_of_lt {cap head j u : Nat} (hj : j < u) (hu : u < cap) :
    (head + j) % cap ≠ (head + u) % cap := by
  intro heq
  have h2 : Nat.ModEq cap j u := Nat.ModEq.add_left_cancel' head heq
  have h3 : j % cap = u % cap := h2
  rw [Nat.mod_eq_of_lt (lt_trans hj hu), Nat.mod_eq_of_lt hu] at h3
  omega

/-- Arming a slot changes neither the used count nor the capacity nor the
ring indices. -/
theorem armSlot_fields (r : RingState) (i : Nat) :
    (armSlot r i).usedCount = r.usedCount
    ∧ (armSlot r i).capacity = r.capacity
    ∧ (armSlot r i).slots.length = r.slots.length
    ∧ (armSlot r i).head = r.head
    ∧ (armSlot r i).current = r.current := by
  unfold armSlot
  cases r.slots[i]? <;> simp

/-- A submission on a full ring fails with `ringFull` (backpressure), and
the ring value is not consumed. -/
theorem submitAppend_full (r : RingState) (b l a : Nat)
    (h : ¬ r.usedCount < r.capacity) :
    submitAppend r b l a = .error .ringFull := by
  unfold submitAppend linkNext
  simp [h]

/-- A submission on a non-full ring succeeds and increments the used count,
preserving the capacity. -/
theorem submitAppend_ok_fields (r : RingState) (b l a : Nat)
    (h : r.usedCount < r.capacity) :
    ∃ r2, submitAppend r b l a = .ok r2
      ∧ r2.usedCount = r.usedCount + 1 ∧ r2.capacity = r.capacity := by
  unfold submitAppend linkNext
  simp only [h, if_true]
  refine ⟨_, rfl, ?_, ?_⟩
  · rw [(armSlot_fields _ _).1]
  · rw [(armSlot_fields _ _).2.1]

theorem submitStep_usedCount (r : RingState) (sub : Nat × Nat × Nat) :
    (submitStep r sub).usedCount
      = (if r.usedCount < r.capacity then r.usedCount + 1 else r.usedCount)
    ∧ (submitStep r sub).capacity = r.capacity := by
  unfold submitStep
  by_cases h : r.usedCount < r.capacity
  · obtain ⟨r2, he, hu, hc⟩ := submitAppend_ok_fields r sub.1 sub.2.1 sub.2.2 h
    rw [he]
    simp [h, hu, hc]
  · rw [submitAppend_full r sub.1 sub.2.1 sub.2.2 h]
    simp [h]

theorem submitSeq_usedCount (subs : List (Nat × Nat × Nat)) :
    ∀ r : RingState, r.usedCount ≤ r.capacity →
    (submitSeq r subs).usedCount = min (r.usedCount + subs.length) r.capacity
    ∧ (submitSeq r subs).capacity = r.capacity := by
  induction subs with
  | nil =>
      intro r h
      have hnil : submitSeq r [] = r := rfl
      rw [hnil]
      simp only [List.length_nil, Nat.add_zero]
      exact ⟨by omega, by trivial⟩
  | cons x xs ih =>
      intro r h
      have hs := submitStep_usedCount r x
      have hrw : submitSeq r (x :: xs) = submitSeq (submitStep r x) xs := rfl
      rw [hrw]
      have hle : (submitStep r x).usedCount ≤ (submitStep r x).capacity := by
        rw [hs.1, hs.2]
        by_cases hlt : r.usedCount < r.capacity
        · rw [if_pos hlt]
          omega
        · rw [if_neg hlt]
          omega
      have h2 := ih (submitStep r x) hle
      rw [h2.1, h2.2, hs.1, hs.2]
      simp only [List.length_cons]
      by_cases hlt : r.usedCount < r.capacity
      · rw [if_pos hlt]
        exact ⟨by omega, by trivial⟩
      · rw [if_neg hlt]
        exact ⟨by omega, by trivial⟩

/-- Claim C1: over every sequence of append-mode submissions on a ring of
capacity `n` (either direction: the TX and RX rings are both instances of
`RingState`, their used counts are `tx_used_desc_cnt`/`rx_used_desc_cnt`),
the used-descriptor count never exceeds `n`; and after `n` submissions
without an intervening reclaim, the next submission fails with the
recoverable `ringFull` backpressure error. -/
theorem ring_usedCount_bounded_and_full_fails (n : Nat)
    (subs : List (Nat × Nat × Nat)) :
    (submitSeq (initRing n) subs).usedCount ≤ n
    ∧ (subs.length = n →
        ∀ b l a, submitAppend (submitSeq (initRing n) subs) b l a
          = .error .ringFull) := by
  have h0 : (initRing n).usedCount ≤ (initRing n).capacity := by
    simp [initRing]
  have h := submitSeq_usedCount subs (initRing n) h0
  have hu : (initRing n).usedCount = 0 := rfl
  have hc : (initRing n).capacity = n := rfl
  rw [hu, hc] at h
  constructor
  · rw [h.1]
    omega
  · intro hlen b l a
    apply submitAppend_full
    rw [h.1, h.2, hlen]
    omega

/-- Closed witness for C1: with capacity 2, two submissions fill the ring
and the third fails with `ringFull`. -/
theorem ring_usedCount_bounded_and_full_fails_witness :
    ([(0, 4, 7), (0, 4, 8)] : List (Nat × Nat × Nat)).length = 2
    ∧ submitAppend (submitSeq (initRing 2) [(0, 4, 7), (0, 4, 8)]) 0 4 9
        = .error .ringFull :=
  ⟨by decide,
   (ring_usedCount_bounded_and_full_fails 2 [(0, 4, 7), (0, 4, 8)]).2 (by decide) 0 4 9⟩

/-- Reclaiming from an empty ring returns nothing and leaves the ring
unchanged. -/
theorem reclaimHead_none_empty (r : RingState) (h : r.usedCount = 0) :
    reclaimHead r = (none, r) := by
  unfold reclaimHead
  rw [if_pos h]

/-- Reclaiming while the head slot is still owned by the hardware returns
nothing and leaves the ring unchanged. -/
theorem reclaimHead_none_hw (r : RingState) (s : TaggedDescriptor)
    (hne : r.usedCount ≠ 0) (hs : r.slots[r.head]? = some s)
    (hhw : s.owner = .hardware) :
    reclaimHead r = (none, r) := by
  unfold reclaimHead
  rw [if_neg hne, hs]
  simp [hhw]

/-- Reclaiming once the head slot's ownership has returned to software
delivers the slot's metadata and advances the head. -/
theorem reclaimHead_some (r : RingState) (s : TaggedDescriptor)
    (hne : r.usedCount ≠ 0) (hs : r.slots[r.head]? = some s)
    (hsw : s.owner = .software) :
    reclaimHead r = (some (s.handle, s.bufferPtr, s.transferredLength),
      { r with head := (r.head + 1) % r.capacity,
               usedCount := r.usedCount - 1 }) := by
  unfold reclaimHead
  rw [if_neg hne, hs]
  simp [hsw]

/-- The engine completing a hardware-owned slot rewrites just that slot:
ownership returns to software and the transferred length is recorded. -/
theorem hwComplete_of_hw (r : RingState) (i : Nat) (s : TaggedDescriptor)
    (k : Nat) (hs : r.slots[i]? = some s) (hhw : s.owner = .hardware) :
    hwComplete r i k
      = { r with slots :=
            r.slots.set i { s with owner := .software, transferredLength := k } } := by
  unfold hwComplete
  rw [hs]
  simp [hhw]

/-- Claim C3: the reclaim operation underlying
`spi_slave_hd_hal_get_tx_finished_trans` and
`spi_slave_hd_hal_get_rx_finished_trans` returns nothing while the head
slot's owner is HARDWARE (leaving the ring unchanged); once ownership flips
to SOFTWARE it returns exactly the caller-submitted correlation handle and
buffer pointer plus the transferred length, unchanged; and a second call
before any new completion returns nothing — no double delivery. -/
theorem reclaimHead_ownership_protocol (r : RingState) (s : TaggedDescriptor)
    (hlen : r.slots.length = r.capacity)
    (hhead : r.head < r.capacity)
    (hused : 0 < r.usedCount)
    (hcap : r.usedCount ≤ r.capacity)
    (hs : r.slots[r.head]? = some s)
    (hw : s.owner = .hardware) :
    reclaimHead r = (none, r)
    ∧ (∀ k, (reclaimHead (hwComplete r r.head k)).1
        = some (s.handle, s.bufferPtr, k))
    ∧ (∀ k, onlyHeadCompleted r →
        (reclaimHead (reclaimHead (hwComplete r r.head k)).2).1 = none) := by
  have hne : r.usedCount ≠ 0 := by omega
  have hheadlen : r.head < r.slots.length := by omega
  refine ⟨reclaimHead_none_hw r s hne hs hw, ?_, ?_⟩
  · intro k
    rw [hwComplete_of_hw r r.head s k hs hw]
    have hset : (r.slots.set r.head
        { s with owner := .software, transferredLength := k })[r.head]?
        = some { s with owner := .software, transferredLength := k } :=
      List.getElem?_set_self hheadlen
    exact congrArg Prod.fst (reclaimHead_some
      { r with slots :=
          r.slots.set r.head { s with owner := .software, transferredLength := k } }
      { s with owner := .software, transferredLength := k } hne hset rfl)
  · intro k honly
    rw [hwComplete_of_hw r r.head s k hs hw]
    have hset : (r.slots.set r.head
        { s with owner := .software, transferredLength := k })[r.head]?
        = some { s with owner := .software, transferredLength := k } :=
      List.getElem?_set_self hheadlen
    rw [reclaimHead_some
      { r with slots :=
          r.slots.set r.head { s with owner := .software, transferredLength := k } }
      { s with owner := .software, transferredLength := k } hne hset rfl]
    by_cases hu1 : r.usedCount - 1 = 0
    · exact congrArg Prod.fst (reclaimHead_none_empty _ hu1)
    · have hcap2 : 2 ≤ r.capacity := by omega
      have hne2 : (r.head + 1) % r.capacity ≠ r.head := by
        by_cases hlt : r.head + 1 < r.capacity
        · rw [Nat.mod_eq_of_lt hlt]
          omega
        · have heq : r.head + 1 = r.capacity := by omega
          rw [heq, Nat.mod_self]
          omega
      have hidx : (r.head + 1) % r.capacity < r.slots.length := by
        rw [hlen]
        exact Nat.mod_lt _ (by omega)
      obtain ⟨t, ht⟩ : ∃ t, r.slots[(r.head + 1) % r.capacity]? = some t :=
        ⟨_, List.getElem?_eq_getElem hidx⟩
      have htown : t.owner = .hardware := by
        have h1 := honly 1 (by omega) (by omega)
        rw [List.getD_eq_getElem?_getD, ht] at h1
        simpa using h1
      have hst : (r.slots.set r.head
          { s with owner := .software, transferredLength := k })[(r.head + 1) % r.capacity]?
          = some t := by
        rw [List.getElem?_set_ne (Ne.symm hne2)]
        exact ht
      exact congrArg Prod.fst (reclaimHead_none_hw _ t hu1 hst htown)

/-- Closed witness for C3 on the concrete two-slot ring: no delivery while
the head is hardware-owned, exact delivery after the completion, and no
double delivery on the second call. -/
theorem reclaimHead_ownership_protocol_witness :
    reclaimHead ringC3 = (none, ringC3)
    ∧ (reclaimHead (hwComplete ringC3 ringC3.head 8)).1 = some (5, 100, 8)
    ∧ (reclaimHead (reclaimHead (hwComplete ringC3 ringC3.head 8)).2).1 = none := by
  have h := reclaimHead_ownership_protocol ringC3 descA rfl (by decide)
    (by decide) (by decide) rfl rfl
  exact ⟨h.1, h.2.1 8, h.2.2 8 (by decide)⟩

/-- Claim C4: `spi_slave_hd_hal_txdma_append` and
`spi_slave_hd_hal_rxdma_append` return `invalid_state` exactly when the
context is not in append mode or the respective ring has no free slot, they
return `ok` in every other case, and no other error code is ever surfaced. -/
theorem append_result_ok_or_invalid_state (hal : HalContext) (b l a : Nat) :
    ((spi_slave_hd_hal_txdma_append hal b l a).1 = .invalid_state
      ↔ (hal.append_mode = false
          ∨ hal.txRing.capacity ≤ hal.txRing.usedCount))
    ∧ ((spi_slave_hd_hal_txdma_append hal b l a).1 = .ok
      ↔ (hal.append_mode = true
          ∧ hal.txRing.usedCount < hal.txRing.capacity))
    ∧ ((spi_slave_hd_hal_txdma_append hal b l a).1 = .ok
        ∨ (spi_slave_hd_hal_txdma_append hal b l a).1 = .invalid_state)
    ∧ ((spi_slave_hd_hal_rxdma_append hal b l a).1 = .invalid_state
      ↔ (hal.append_mode = false
          ∨ hal.rxRing.capacity ≤ hal.rxRing.usedCount))
    ∧ ((spi_slave_hd_hal_rxdma_append hal b l a).1 = .ok
      ↔ (hal.append_mode = true
          ∧ hal.rxRing.usedCount < hal.rxRing.capacity))
    ∧ ((spi_slave_hd_hal_rxdma_append hal b l a).1 = .ok
        ∨ (spi_slave_hd_hal_rxdma_append hal b l a).1 = .invalid_state) := by
  unfold spi_slave_hd_hal_txdma_append spi_slave_hd_hal_rxdma_append
  by_cases hm : hal.append_mode = true
  · by_cases htx : hal.txRing.usedCount < hal.txRing.capacity
    · obtain ⟨r2, he, _, _⟩ := submitAppend_ok_fields hal.txRing b l a htx
      by_cases hrx : hal.rxRing.usedCount < hal.rxRing.capacity
      · obtain ⟨r3, he3, _, _⟩ := submitAppend_ok_fields hal.rxRing b l a hrx
        simp [hm, he, he3]
        omega
      · rw [submitAppend_full hal.rxRing b l a hrx]
        simp [hm, he]
        omega
    · rw [submitAppend_full hal.txRing b l a htx]
      by_cases hrx : hal.rxRing.usedCount < hal.rxRing.capacity
      · obtain ⟨r3, he3, _, _⟩ := submitAppend_ok_fields hal.rxRing b l a hrx
        simp [hm, he3]
        omega
      · rw [submitAppend_full hal.rxRing b l a hrx]
        simp [hm]
        omega
  · simp only [Bool.not_eq_true] at hm
    simp [hm]

/-- Claim C10: for every configuration and transfer-size bound, the context
produced by `spi_slave_hd_hal_init` has its internal workaround status word
`intr_not_triggered` equal to 0. -/
theorem init_intr_not_triggered_zero (cfg : HalConfig) (busMaxTransferSize : Nat) :
    (spi_slave_hd_hal_init cfg busMaxTransferSize).intr_not_triggered = 0 := rfl

/-! ## FIFO ordering of append-mode completions -/

/-- A successful submission is exactly `submitResult`. -/
theorem submitAppend_eq_ok (r : RingState) (b l a : Nat)
    (hcl : r.current < r.slots.length)
    (hlt : r.usedCount < r.capacity) :
    submitAppend r b l a = .ok (submitResult r b l a) := by
  unfold submitAppend linkNext armSlot submitResult armedDesc
  rw [if_pos hlt]
  dsimp only
  rw [List.getElem?_set_self (by simpa using hcl)]
  dsimp only
  rw [List.set_set]

/-- A successful submission preserves the ring invariant. -/
theorem submitResult_inv (r : RingState) (b l a : Nat) (inv : RingInv r)
    (hlt : r.usedCount < r.capacity) :
    RingInv (submitResult r b l a) := by
  refine ⟨inv.capPos, ?_, inv.headLt, ?_, ?_⟩
  · unfold submitResult
    dsimp only
    rw [List.length_set]
    exact inv.slotsLen
  · unfold submitResult
    dsimp only
    omega
  · unfold submitResult
    dsimp only
    rw [inv.currentEq, Nat.mod_add_mod]
    have he : r.head + r.usedCount + 1 = r.head + (r.usedCount + 1) := by omega
    rw [he]

/-- A successful submission appends the new handle at the tail of the
in-flight handle list. -/
theorem inflight_submitResult (r : RingState) (b l a : Nat) (inv : RingInv r)
    (hlt : r.usedCount < r.capacity) :
    inflightHandles (submitResult r b l a) = inflightHandles r ++ [a] := by
  have hcl : r.current < r.slots.length := by
    rw [inv.slotsLen, inv.currentEq]
    exact Nat.mod_lt _ inv.capPos
  unfold inflightHandles submitResult
  dsimp only
  rw [List.range_succ, List.map_append]
  congr 1
  · apply List.map_congr_left
    intro j hj
    rw [List.mem_range] at hj
    have hne : r.current ≠ (r.head + j) % r.capacity := by
      rw [inv.currentEq]
      exact Ne.symm (add_mod_ne_of_lt hj hlt)
    rw [List.getD_eq_getElem?_getD, List.getD_eq_getElem?_getD,
        List.getElem?_set_ne hne]
  · rw [List.map_cons, List.map_nil, List.getD_eq_getElem?_getD,
        ← inv.currentEq, List.getElem?_set_self hcl]
    rfl

/-- A completion that touches no hardware-owned slot is a no-op. -/
theorem hwComplete_noop (r : RingState) (i k : Nat)
    (h : ∀ s, r.slots[i]? = some s → s.owner ≠ .hardware) :
    hwComplete r i k = r := by
  unfold hwComplete
  cases hs : r.slots[i]? with
  | none => rfl
  | some s => simp [h s hs]

/-- A hardware completion preserves the invariant and never changes the
in-flight handle sequence (it rewrites only ownership and length of one
slot). -/
theorem hwComplete_preserves (r : RingState) (i k : Nat) (inv : RingInv r) :
    RingInv (hwComplete r i k)
    ∧ inflightHandles (hwComplete r i k) = inflightHandles r := by
  cases hs : r.slots[i]? with
  | none =>
      have hnoop : hwComplete r i k = r :=
        hwComplete_noop r i k (by intro s h2; rw [hs] at h2; cases h2)
      rw [hnoop]
      exact ⟨inv, rfl⟩
  | some s =>
      by_cases ho : s.owner = .hardware
      · rw [hwComplete_of_hw r i s k hs ho]
        obtain ⟨hilen, -⟩ := List.getElem?_eq_some_iff.mp hs
        refine ⟨⟨inv.capPos, ?_, inv.headLt, inv.usedLe, inv.currentEq⟩, ?_⟩
        · dsimp only
          rw [List.length_set]
          exact inv.slotsLen
        · unfold inflightHandles
          dsimp only
          apply List.map_congr_left
          intro j hj
          by_cases hij : i = (r.head + j) % r.capacity
          · rw [List.getD_eq_getElem?_getD, List.getD_eq_getElem?_getD, ← hij,
                List.getElem?_set_self hilen, hs]
            rfl
          · rw [List.getD_eq_getElem?_getD, List.getD_eq_getElem?_getD,
                List.getElem?_set_ne hij]
      · have hnoop : hwComplete r i k = r := by
          apply hwComplete_noop
          intro s2 h2
          rw [hs] at h2
          cases h2
          exact ho
        rw [hnoop]
        exact ⟨inv, rfl⟩

/-- Inversion: a reclaim that returns nothing leaves the ring unchanged. -/
theorem reclaimHead_none_inv (r r2 : RingState)
    (h : reclaimHead r = (none, r2)) : r2 = r := by
  unfold reclaimHead at h
  by_cases h0 : r.usedCount = 0
  · rw [if_pos h0] at h
    injection h with _ h2
    exact h2.symm
  · rw [if_neg h0] at h
    cases hs : r.slots[r.head]? with
    | none =>
        rw [hs] at h
        injection h with _ h2
        exact h2.symm
    | some sd =>
        rw [hs] at h
        by_cases hsw : sd.owner = .software
        · simp [hsw] at h
        · simp only [hsw, if_false] at h
          injection h with _ h2
          exact h2.symm

/-- Inversion: a successful reclaim pops the software-owned head slot and
returns its handle. -/
theorem reclaimHead_some_inv (r : RingState) (a b c : Nat) (r2 : RingState)
    (h : reclaimHead r = (some (a, b, c), r2)) :
    ∃ sd : TaggedDescriptor, r.usedCount ≠ 0 ∧ r.slots[r.head]? = some sd
      ∧ sd.owner = .software ∧ a = sd.handle
      ∧ r2 = { r with
          head := (r.head + 1) % r.capacity
          usedCount := r.usedCount - 1 } := by
  unfold reclaimHead at h
  by_cases h0 : r.usedCount = 0
  · rw [if_pos h0] at h
    simp at h
  · rw [if_neg h0] at h
    cases hs : r.slots[r.head]? with
    | none =>
        rw [hs] at h
        simp at h
    | some sd =>
        rw [hs] at h
        by_cases hsw : sd.owner = .software
        · simp only [hsw, if_true, Prod.mk.injEq, Option.some.injEq] at h
          obtain ⟨⟨ha, hb, hc⟩, hr⟩ := h
          exact ⟨sd, h0, rfl, hsw, ha.symm, hr.symm⟩
        · simp only [hsw, if_false] at h
          simp at h

/-- Popping the head preserves the ring invariant and removes exactly the
head handle from the front of the in-flight sequence. -/
theorem reclaim_literal_preserves (r : RingState) (inv : RingInv r)
    (sd : TaggedDescriptor) (h0 : r.usedCount ≠ 0)
    (hs : r.slots[r.head]? = some sd) :
    RingInv { r with
      head := (r.head + 1) % r.capacity
      usedCount := r.usedCount - 1 }
    ∧ inflightHandles r
      = sd.handle :: inflightHandles { r with
          head := (r.head + 1) % r.capacity
          usedCount := r.usedCount - 1 } := by
  constructor
  · refine ⟨inv.capPos, inv.slotsLen, Nat.mod_lt _ inv.capPos, ?_, ?_⟩
    · have := inv.usedLe
      dsimp only
      omega
    · dsimp only
      rw [Nat.mod_add_mod]
      have he : r.head + 1 + (r.usedCount - 1) = r.head + r.usedCount := by omega
      rw [he]
      exact inv.currentEq
  · unfold inflightHandles
    dsimp only
    obtain ⟨u, hu⟩ : ∃ u, r.usedCount = u + 1 := ⟨r.usedCount - 1, by omega⟩
    rw [hu]
    simp only [Nat.add_sub_cancel]
    rw [List.range_succ_eq_map, List.map_cons, List.map_map]
    congr 1
    · rw [Nat.add_zero, Nat.mod_eq_of_lt inv.headLt,
          List.getD_eq_getElem?_getD, hs]
      rfl
    · apply List.map_congr_left
      intro j hj
      simp only [Function.comp, Nat.succ_eq_add_one]
      rw [Nat.mod_add_mod]
      have he2 : r.head + 1 + j = r.head + (j + 1) := by omega
      rw [he2]

/-- Every run step preserves the run invariant. -/
theorem stepOp_preserves (s : RunState) (op : RingOp) (h : RunInv s) :
    RunInv (stepOp s op) := by
  obtain ⟨hinv, hfifo⟩ := h
  cases op with
  | submit b l a =>
      simp only [stepOp]
      by_cases hlt : s.ring.usedCount < s.ring.capacity
      · have hcl : s.ring.current < s.ring.slots.length := by
          rw [hinv.slotsLen, hinv.currentEq]
          exact Nat.mod_lt _ hinv.capPos
        rw [submitAppend_eq_ok s.ring b l a hcl hlt]
        refine ⟨submitResult_inv s.ring b l a hinv hlt, ?_⟩
        dsimp only
        rw [inflight_submitResult s.ring b l a hinv hlt,
            ← List.append_assoc, hfifo]
      · rw [submitAppend_full s.ring b l a hlt]
        exact ⟨hinv, hfifo⟩
  | complete i k =>
      simp only [stepOp]
      have h2 := hwComplete_preserves s.ring i k hinv
      exact ⟨h2.1, by rw [h2.2]; exact hfifo⟩
  | reclaim =>
      simp only [stepOp]
      cases hret : reclaimHead s.ring with
      | mk o r2 =>
          cases o with
          | none =>
              have hr2 : r2 = s.ring := reclaimHead_none_inv s.ring r2 hret
              dsimp only
              rw [hr2]
              exact ⟨hinv, hfifo⟩
          | some t =>
              obtain ⟨a, bb, cc⟩ := t
              obtain ⟨sd, h0, hs, hsw, ha, hr⟩ :=
                reclaimHead_some_inv s.ring a bb cc r2 hret
              have hp := reclaim_literal_preserves s.ring hinv sd h0 hs
              dsimp only
              subst hr
              refine ⟨hp.1, ?_⟩
              rw [ha, List.append_assoc, List.singleton_append, ← hp.2]
              exact hfifo

/-- The run invariant holds along every run. -/
theorem runOps_preserves (ops : List RingOp) :
    ∀ s : RunState, RunInv s → RunInv (runOps s ops) := by
  induction ops with
  | nil => intro s h; exact h
  | cons op ops ih =>
      intro s h
      exact ih (stepOp s op) (stepOp_preserves s op h)

/-- A fresh run satisfies the run invariant. -/
theorem initRun_inv (n : Nat) (hn : 0 < n) : RunInv (initRun n) := by
  refine ⟨⟨hn, ?_, hn, Nat.zero_le n, ?_⟩, rfl⟩
  · simp [initRun, initRing]
  · simp [initRun, initRing]

/-- Claim C2: in append mode, over every interleaving of submissions,
hardware completions (in any slot order) and reclaims, the sequence of
delivered handles is a prefix of the sequence of successfully submitted
handles — completions are observable only in submission order; and in the
concrete A, B, C scenario (three submissions, all three completed with the
completions arriving out of slot order) the three retrievals deliver
1, 2, 3 in exactly that order. -/
theorem append_completions_fifo (n : Nat) (hn : 0 < n) (ops : List RingOp) :
    (runOps (initRun n) ops).delivered <+: (runOps (initRun n) ops).submitted
    ∧ (runOps (initRun 4) opsABC).delivered = [1, 2, 3] := by
  constructor
  · have h := runOps_preserves ops (initRun n) (initRun_inv n hn)
    exact ⟨inflightHandles (runOps (initRun n) ops).ring, h.2⟩
  · decide

/-- Closed witness for C2 at capacity 4 over the A, B, C scenario. -/
theorem append_completions_fifo_witness :
    0 < 4
    ∧ (runOps (initRun 4) opsABC).delivered
        <+: (runOps (initRun 4) opsABC).submitted :=
  ⟨by decide, (append_completions_fifo 4 (by decide) opsABC).1⟩

end SpiSlaveHd
